import Mathlib

/-!
Verification of the rs621 pagination and rate-limiting engine.

This file gives a shallow embedding, in Lean 4, of the parts of the rs621
crate that the verified properties talk about:

* `src/client/rate_limit.rs` — the shared cooldown rate limiter
  (`RateLimit::lock`, `RateLimit::check`, the panic-safe `Guard` drop impl),
  modelled as a labelled transition system over a mutex-holder/deadline-slot
  state, with wall-clock instants as natural numbers of milliseconds.
* `src/post.rs` — the `PostStream` lazy search sequence (`poll_next`),
  modelled as an explicit state machine driven by a script of page responses.
* `src/tag.rs` — the tag `Query` builder and `Client::tag_search_page`
  (next-cursor computation, error/empty-page termination).
* `src/client.rs` — `check_limit`, `get_json` and the `list` family.

Record decoding (`Post::try_from`, serde derives) is treated as an abstract
collaborator, exactly as in the specification: functions are parameterized by
a decoder `J → Except E R`.
-/

set_option linter.unusedVariables false

namespace RS621

/-! ## Rate limiter (src/client/rate_limit.rs)

The Rust code:

```
const REQ_COOLDOWN_DURATION: Duration = Duration::from_millis(600);

struct RateLimit { deadline: Arc<Mutex<Option<Instant>>> }

struct Guard<'a>(MutexGuard<'a, Option<Instant>>);
impl Drop for Guard<'_> {
  fn drop(&mut self) { *self.0 = Some(Instant::now() + REQ_COOLDOWN_DURATION); }
}

impl RateLimit {
  async fn lock(&self) -> Guard {
    loop {
      let now = Instant::now();
      let deadline = {
        let guard = self.deadline.lock().await;
        match &*guard {
          None => return Guard(guard),
          Some(deadline) if now >= *deadline => return Guard(guard),
          Some(deadline) => *deadline,
        }
      };
      sleep_until(deadline).await;
    }
  }
  pub async fn check<F, R>(self, fut: F) -> R {
    let guard = self.lock().await;
    let result = fut.await;
    drop(guard);
    result
  }
}
```

We model wall-clock time as `Nat` milliseconds.  The shared state consists of
the deadline slot (`Option Nat`) together with the identity of the task
currently holding the mutex guard returned by `lock` (`Option Nat`): in
`check`, the guard is acquired before the wrapped future starts and is
dropped only after the wrapped future completes, so the guard is held for the
whole duration of the wrapped request.

An execution is a chronological list of events:

* `acq i t` — task `i`'s `lock()` call returns at time `t` (the wrapped
  request starts).  This requires that no task holds the guard and that the
  deadline slot permits starting: the code returns the guard only when the
  slot is `None`, or when a `now` sample taken at or before `t` satisfies
  `now >= deadline` (hence `deadline ≤ t`).
* `fin i t` — task `i`'s wrapped future completes at time `t` and the guard
  is dropped; the `Drop` impl unconditionally stores
  `Some(t + REQ_COOLDOWN_DURATION)` in the slot and releases the mutex.

The inner lock/inspect/release iterations of `lock()` that do not return a
guard leave the shared state unchanged and are therefore not modelled as
events.
-/

/-- Embedding of `REQ_COOLDOWN_DURATION = Duration::from_millis(600)`. -/
def reqCooldownMs : Nat := 600

namespace RateLimit

/-- Shared limiter state: who currently holds the request guard, and the
contents of the `deadline: Arc<Mutex<Option<Instant>>>` slot. -/
structure LState where
  holder : Option Nat
  slot : Option Nat
deriving DecidableEq, Repr

/-- Trace events: `acq i t` — `lock()` returns to task `i` at time `t`
(start of the wrapped request); `fin i t` — task `i`'s wrapped future
completes at time `t` and the guard is dropped. -/
inductive Ev where
  | acq (task : Nat) (t : Nat)
  | fin (task : Nat) (t : Nat)
deriving DecidableEq, Repr

/-- Timestamp of an event. -/
def Ev.time : Ev → Nat
  | .acq _ t => t
  | .fin _ t => t

/-- The condition under which `lock()` returns a guard: the slot is `None`,
or the deadline has passed (`now >= *deadline` for a `now` sample taken no
later than the return instant). -/
def permitted : Option Nat → Nat → Bool
  | none, _ => true
  | some d, t => decide (d ≤ t)

/-- One step of the limiter transition system.  An `acq` requires the mutex
to be free and the slot to permit starting; it leaves the slot unchanged
(the lock body only reads it).  A `fin` requires the mutex to be held by the
finishing task; the `Guard` drop impl then writes
`Some(now + REQ_COOLDOWN_DURATION)` and releases the mutex. -/
def step : LState → Ev → Option LState
  | ⟨none, slot⟩, .acq i t => if permitted slot t then some ⟨some i, slot⟩ else none
  | ⟨some _, _⟩, .acq _ _ => none
  | ⟨some j, _⟩, .fin i t =>
      if i = j then some ⟨none, some (t + reqCooldownMs)⟩ else none
  | ⟨none, _⟩, .fin _ _ => none

/-- Whether a list of events is a valid execution of the limiter from a given
state. -/
def validTrace : LState → List Ev → Bool
  | _, [] => true
  | st, e :: rest =>
      match step st e with
      | some st' => validTrace st' rest
      | none => false

/-- Whether the event timestamps are chronological (nondecreasing) and all
at or after a given lower bound. -/
def chron : Nat → List Ev → Bool
  | _, [] => true
  | t0, e :: rest => decide (t0 ≤ e.time) && chron e.time rest

/-- The start times of the permitted wrapped requests, in trace order. -/
def acqTimes : List Ev → List Nat
  | [] => []
  | .acq _ t :: rest => t :: acqTimes rest
  | .fin _ _ :: rest => acqTimes rest

/-- Lower bound on the time of the next possible `acq` from a given state,
given that all further events happen at or after `t0`. -/
def stateLB : LState → Nat → Nat
  | ⟨some _, _⟩, t0 => t0 + reqCooldownMs
  | ⟨none, some d⟩, _ => d
  | ⟨none, none⟩, _ => 0

/-- Alternation discipline: starting from a free (respectively held) mutex,
events must alternate `acq`, `fin`, `acq`, `fin`, … — no second request can
start while one is in flight. -/
def alternatesFrom : Bool → List Ev → Bool
  | _, [] => true
  | true, .acq _ _ :: rest => alternatesFrom false rest
  | false, .fin _ _ :: rest => alternatesFrom true rest
  | _, _ => false

end RateLimit

/-- Outcome of the wrapped future passed to `RateLimit::check`: it may
resolve to a success value, resolve to an error value (errors are ordinary
values of the output type in Rust), or panic/unwind. -/
inductive FutOutcome (ε α : Type) where
  | ok (value : α)
  | err (error : ε)
  | panicked
deriving DecidableEq, Repr

/-- Embedding of the `Drop` impl of `Guard`: dropping the guard at instant
`dropTime` unconditionally overwrites the deadline slot with
`Some(dropTime + REQ_COOLDOWN_DURATION)`, whatever it held before. -/
def guardDropSlot (dropTime : Nat) (_old : Option Nat) : Option Nat :=
  some (dropTime + reqCooldownMs)

/-- Embedding of the body of `RateLimit::check` after `lock()` has returned:
the wrapped future runs to its outcome, and on every exit path — normal
return of a success value, normal return of an error value, or unwinding
from a panic — the `Guard` is dropped, running `guardDropSlot` at the
completion instant.  The outcome itself is passed through unchanged. -/
def checkRun (slot : Option Nat) (outcome : FutOutcome ε α) (completion : Nat) :
    FutOutcome ε α × Option Nat :=
  match outcome with
  | .ok v => (.ok v, guardDropSlot completion slot)
  | .err e => (.err e, guardDropSlot completion slot)
  | .panicked => (.panicked, guardDropSlot completion slot)


/-! ## Lazy post search sequence (src/post.rs)

The Rust `PostStream` is a `futures::Stream` whose `poll_next` drives a small
state machine:

```
pub struct PostStream<'a> {
    client: &'a Client,
    query: Option<Query>,
    query_url: Option<String>,
    query_future: Option<Pin<Box<dyn Future<Output = Rs621Result<serde_json::Value>> + Send>>>,
    last_id: Option<u64>,
    page: u64,
    chunk: Vec<Rs621Result<Post>>,
    ended: bool,
}
```

We embed it as an explicit state record.  The outstanding `query_future` is
replaced by a boolean `fetching` flag, and the network is replaced by a
script: a list of page responses that the in-flight request consumes one at a
time, in order.  Consuming an element of the script is exactly "issuing a
page request and receiving its response"; an empty script stands for a future
that is not ready yet (`Poll::Pending`).  The record decoder `Post::try_from`
and the record id projection `post.id` are abstract parameters `tryFrom` and
`rid`, as in the specification's Decoder collaborator. -/

namespace Post

/-- Embedding of `post::Query`: URL-encoded tag string plus the
`ordered` flag (`any(|t| t.starts_with("order:"))`). -/
structure Query where
  str_url : String
  ordered : Bool
deriving DecidableEq, Repr

/-- Embedding of `ITER_CHUNK_SIZE = 320`. -/
def iterChunkSize : Nat := 320

instance exceptDecEq {ε α : Type} [DecidableEq ε] [DecidableEq α] :
    DecidableEq (Except ε α) := fun a b =>
  match a, b with
  | .ok x, .ok y =>
      if h : x = y then isTrue (by rw [h]) else isFalse (by intro hh; cases hh; exact h rfl)
  | .error x, .error y =>
      if h : x = y then isTrue (by rw [h]) else isFalse (by intro hh; cases hh; exact h rfl)
  | .ok _, .error _ => isFalse (by intro hh; cases hh)
  | .error _, .ok _ => isFalse (by intro hh; cases hh)

/-- Embedding of the `PostStream` state.  `fetching` stands for
`query_future.is_some()`. -/
structure PostStream (E R : Type) where
  query : Option Query
  query_url : Option String
  last_id : Option Nat
  page : Nat
  chunk : List (Except E R)
  ended : Bool
  fetching : Bool
deriving DecidableEq

/-- Embedding of `PostStream::new`. -/
def PostStream.new {E R : Type} (query : Option Query) (start_id : Option Nat) :
    PostStream E R :=
  ⟨query, none, start_id, 0, [], false, false⟩

/-- One scripted page response: the `Rs621Result<serde_json::Value>` the
outstanding query future resolves to, with a successful body already split
into its JSON array elements (claim C8 treats the non-array case
separately, over the `ClientV1` embedding). -/
inductive PageResp (E J : Type) where
  | ok (body : List J)
  | err (e : E)
deriving DecidableEq

/-- Result of one `poll_next` call. -/
inductive PollRes (E R : Type) where
  | pending
  | ready (item : Option (Except E R))
deriving DecidableEq

variable {E J R : Type}

/-- Embedding of `this.chunk.pop()` together with the `last_id` update:
`Vec::pop` removes the last element; if it is an `Ok` post its id becomes
the new `last_id`. -/
def popChunk (rid : R → Nat) (s : PostStream E R) :
    Option (Except E R) × PostStream E R :=
  match s.chunk.getLast? with
  | none => (none, s)
  | some it =>
      (some it,
        { s with
          chunk := s.chunk.dropLast,
          last_id := match it with
            | .ok p => some (rid p)
            | .error _ => s.last_id })

/-- Embedding of the `&before_id=…` URL fragment. -/
def beforePart : Option Nat → String
  | some i => "&before_id=" ++ toString i
  | none => ""

/-- Embedding of the `&tags=…` URL fragment. -/
def tagsPart : Option Query → String
  | some q => "&tags=" ++ q.str_url
  | none => ""

/-- Embedding of the request-issuing branch of `poll_next`
(`QueryPollRes::NotFetching` with an empty chunk): build the query URL —
incrementing `page` first when the query is ordered, otherwise using
`before_id = last_id` — store it, and mark a query future as outstanding. -/
def startFetch (s : PostStream E R) : PostStream E R :=
  let pageIncr := match s.query with
    | some q => q.ordered
    | none => false
  let page' := if pageIncr then s.page + 1 else s.page
  let mid := if pageIncr then "&page=" ++ toString page' else beforePart s.last_id
  let url := "/post/index.json?limit=" ++ toString iterChunkSize ++ mid ++ tagsPart s.query
  { s with page := page', query_url := some url, fetching := true }

/-- Embedding of the `Poll::Ready(res)` branch of `poll_next`: the future is
dropped; on `Ok(body)` the chunk becomes the reversed, element-wise decoded
body and the stream is marked ended when the chunk is empty (then the loop
either returns `None` or pops the first post); on `Err(e)` the stream is
marked ended and the error is streamed. -/
def afterFetch (tryFrom : J → Except E R) (rid : R → Nat)
    (s : PostStream E R) (res : PageResp E J) :
    PollRes E R × PostStream E R :=
  match res with
  | .err e => (.ready (some (.error e)), { s with fetching := false, ended := true })
  | .ok body =>
      let chunk := (body.map tryFrom).reverse
      let s' := { s with fetching := false, chunk := chunk, ended := chunk.isEmpty }
      if chunk.isEmpty then (.ready none, s')
      else
        let (it, s'') := popChunk rid s'
        (.ready it, s'')

/-- Embedding of one `poll_next` call, threading the response script.  The
guards follow the source order: poll the outstanding future if any, else
return `None` if ended, else pop a buffered post, else issue a new page
request (which the same `loop` iteration then polls). -/
def pull (tryFrom : J → Except E R) (rid : R → Nat)
    (s : PostStream E R) (script : List (PageResp E J)) :
    PollRes E R × PostStream E R × List (PageResp E J) :=
  if s.fetching then
    match script with
    | [] => (.pending, s, [])
    | r :: rest =>
        let (o, s') := afterFetch tryFrom rid s r
        (o, s', rest)
  else if s.ended then (.ready none, s, script)
  else if s.chunk.isEmpty then
    let s' := startFetch s
    match script with
    | [] => (.pending, s', [])
    | r :: rest =>
        let (o, s'') := afterFetch tryFrom rid s' r
        (o, s'', rest)
  else
    let (it, s') := popChunk rid s
    (.ready it, s', script)

/-- Iterated `poll_next`: the results of `n` successive pulls. -/
def pulls (tryFrom : J → Except E R) (rid : R → Nat) :
    Nat → PostStream E R → List (PageResp E J) →
    List (PollRes E R) × PostStream E R × List (PageResp E J)
  | 0, s, sc => ([], s, sc)
  | n + 1, s, sc =>
      let r1 := pull tryFrom rid s sc
      let r2 := pulls tryFrom rid n r1.2.1 r1.2.2
      (r1.1 :: r2.1, r2.2.1, r2.2.2)

end Post

/-! ## Tags (src/tag.rs)

`src/tag.rs` imports `crate::client::Cursor`; the revision of
`src/client.rs` present in this snapshot predates the `Cursor` type, so the
type itself (and its text encoding, claim C6) is modelled from the
specification, while everything that *uses* it below (`Query`, the builder
methods, `tag_search_page`) is embedded from `src/tag.rs`. -/

namespace Tag

/-- Modelled from the spec: the `Cursor` tagged union of §3 — `Page(n)` an
absolute page offset, `Before(id)` / `After(id)` a resume position relative
to a record id.  Its Rust definition lives in the `src/client.rs` revision
that is absent from this snapshot; `src/tag.rs` imports it as
`crate::client::Cursor`. -/
inductive Cursor where
  | page (n : Nat)
  | before (id : Nat)
  | after (id : Nat)
deriving DecidableEq, Repr

/-- Embedding of `tag::Order`. -/
inductive Order where
  | idAsc
  | idDsc
  | name
  | date
  | count
  | similarity
deriving DecidableEq, Repr

/-- Embedding of `tag::Category`. -/
inductive Category where
  | general
  | artist
  | copyright
  | character
  | species
  | invalid
  | meta
  | lore
deriving DecidableEq, Repr

/-- Embedding of `tag::Query` (the builder struct; serde renames are
irrelevant to the embedded behaviour). -/
structure Query where
  per_page : Option Nat
  page : Option Cursor
  id : Option Nat
  order : Option Order
  fuzzy_name_matches : Option String
  name_matches : Option String
  name : List String
  category : List Category
  hide_empty : Bool
  has_wiki : Bool
  has_artist : Bool
deriving DecidableEq, Repr

/-- Embedding of `Query::new()` (= `Query::default()`: every option unset,
every list empty, every flag false). -/
def Query.new : Query :=
  ⟨none, none, none, none, none, none, [], [], false, false, false⟩

/-- The `matches!(…, None | Some(Cursor::Page(_)))` test used by the
`page` and `order` builder methods. -/
def isNoneOrPage : Option Cursor → Bool
  | none => true
  | some (.page _) => true
  | some (.before _) => false
  | some (.after _) => false

/-- Embedding of the builder method `Query::page`: set the cursor; if the
new cursor is neither unset nor a `Page` cursor, clear the order. -/
def Query.withPage (q : Query) (v : Option Cursor) : Query :=
  let q1 := { q with page := v }
  if isNoneOrPage q1.page then q1 else { q1 with order := none }

/-- Embedding of the builder method `Query::order`: set the order; if it is
now set and the cursor is neither unset nor a `Page` cursor, clear the
cursor. -/
def Query.withOrder (q : Query) (v : Option Order) : Query :=
  let q1 := { q with order := v }
  if q1.order.isSome && !isNoneOrPage q1.page then { q1 with page := none } else q1

/-- Embedding of the builder method `Query::per_page`. -/
def Query.withPerPage (q : Query) (v : Option Nat) : Query :=
  { q with per_page := v }

/-- Embedding of the builder method `Query::id`. -/
def Query.withId (q : Query) (v : Option Nat) : Query :=
  { q with id := v }

/-- Embedding of the builder method `Query::fuzzy_name_matches`. -/
def Query.withFuzzyNameMatches (q : Query) (v : Option String) : Query :=
  { q with fuzzy_name_matches := v }

/-- Embedding of the builder method `Query::name_matches`. -/
def Query.withNameMatches (q : Query) (v : Option String) : Query :=
  { q with name_matches := v }

/-- Embedding of the builder method `Query::name` (an optional single value
collected into the list). -/
def Query.withName (q : Query) (v : Option String) : Query :=
  { q with name := v.toList }

/-- Embedding of the builder method `Query::names`. -/
def Query.withNames (q : Query) (v : List String) : Query :=
  { q with name := v }

/-- Embedding of the builder method `Query::category` (an optional single
value collected into the list). -/
def Query.withCategory (q : Query) (v : Option Category) : Query :=
  { q with category := v.toList }

/-- Embedding of the builder method `Query::categories`. -/
def Query.withCategories (q : Query) (v : List Category) : Query :=
  { q with category := v }

/-- Embedding of the builder method `Query::hide_empty`. -/
def Query.withHideEmpty (q : Query) (v : Bool) : Query :=
  { q with hide_empty := v }

/-- Embedding of the builder method `Query::has_wiki`. -/
def Query.withHasWiki (q : Query) (v : Bool) : Query :=
  { q with has_wiki := v }

/-- Embedding of the builder method `Query::has_artist`. -/
def Query.withHasArtist (q : Query) (v : Bool) : Query :=
  { q with has_artist := v }

/-- The queries reachable from `Query::new()` by builder-method calls. -/
inductive Reachable : Query → Prop where
  | new : Reachable Query.new
  | withPage {q} (v) : Reachable q → Reachable (q.withPage v)
  | withOrder {q} (v) : Reachable q → Reachable (q.withOrder v)
  | withPerPage {q} (v) : Reachable q → Reachable (q.withPerPage v)
  | withId {q} (v) : Reachable q → Reachable (q.withId v)
  | withFuzzyNameMatches {q} (v) : Reachable q → Reachable (q.withFuzzyNameMatches v)
  | withNameMatches {q} (v) : Reachable q → Reachable (q.withNameMatches v)
  | withName {q} (v) : Reachable q → Reachable (q.withName v)
  | withNames {q} (v) : Reachable q → Reachable (q.withNames v)
  | withCategory {q} (v) : Reachable q → Reachable (q.withCategory v)
  | withCategories {q} (v) : Reachable q → Reachable (q.withCategories v)
  | withHideEmpty {q} (v) : Reachable q → Reachable (q.withHideEmpty v)
  | withHasWiki {q} (v) : Reachable q → Reachable (q.withHasWiki v)
  | withHasArtist {q} (v) : Reachable q → Reachable (q.withHasArtist v)

/-- Embedding of the decoded `/tags.json` body shape: the endpoint returns
`{ "tags": [] }` when there are no results, and a plain array of tag
records otherwise.  The tag record type is an abstract parameter `T`. -/
inductive MaybeTags (T : Type) where
  | empty
  | items (tags : List T)
deriving DecidableEq

/-- Embedding of the `min` component of
`tags.iter().map(|x| x.id).minmax().into_option().unwrap()` on a non-empty
record list. -/
def minId {T : Type} (tid : T → Nat) : List T → Nat
  | [] => 0
  | t :: rest => rest.foldl (fun a x => Nat.min a (tid x)) (tid t)

/-- Embedding of the `max` component of the same `minmax` computation. -/
def maxId {T : Type} (tid : T → Nat) : List T → Nat
  | [] => 0
  | t :: rest => rest.foldl (fun a x => Nat.max a (tid x)) (tid t)

/-- Embedding of the `next_page` match in `Client::tag_search_page`
(src/tag.rs lines 418–427). -/
def nextCursor (pg : Option Cursor) (ord : Option Order) (mn mx : Nat) : Cursor :=
  match pg with
  | some (.before _) => .before mn
  | some (.after _) => .after mx
  | some (.page p) => .page (p + 1)
  | none =>
      match ord with
      | none => .before mn
      | some .idDsc => .before mn
      | some .date => .before mn
      | some .idAsc => .after mx
      | some .name => .page 2
      | some .count => .page 2
      | some .similarity => .page 2

/-- Embedding of `Client::tag_search_page`.  The network and serde are an
oracle argument `resp`: the decoded result of
`get_json_endpoint_query("/tags.json", &query)`.  A `none` query (left by a
previous erroring call) ends the stream before any request is issued, so the
result cannot depend on `resp`; an error response yields the error once and
poisons the continuation query; an empty page ends the stream; a non-empty
page yields its records and the query advanced to the next cursor. -/
def tagSearchPage {T E : Type} (tid : T → Nat)
    (query? : Option Query) (resp : Except E (MaybeTags T)) :
    Option (List (Except E T) × Option Query) :=
  match query? with
  | none => none
  | some query =>
      match resp with
      | .error e => some ([.error e], none)
      | .ok .empty => none
      | .ok (.items []) => none
      | .ok (.items (t :: ts)) =>
          let mn := minId tid (t :: ts)
          let mx := maxId tid (t :: ts)
          let next := nextCursor query.page query.order mn mx
          some ((t :: ts).map Except.ok, some { query with page := some next })

/-! ### Cursor text encoding

The `Display`/`FromStr` implementations for `Cursor` live in the missing
`src/client.rs` revision, so they are modelled from the specification (§3):
`Page(n)` encodes as the decimal digits of `n`, `Before(id)` as `"b"` plus
digits, `After(id)` as `"a"` plus digits; parsing dispatches on the leading
character — `'a'` ⇒ After, `'b'` ⇒ Before, anything else ⇒ Page — with the
remaining characters read as an unsigned decimal number.  Text is modelled
as `List Char`. -/

/-- Modelled from the spec: the decimal digit characters of a natural
number, most significant first, with `0` rendered as `"0"` (Rust's integer
`Display`).  `fuel` bounds the recursion; `natChars` supplies enough. -/
def natCharsCore : Nat → Nat → List Char
  | 0, _ => []
  | fuel + 1, n =>
      if n = 0 then []
      else natCharsCore fuel (n / 10) ++ [Nat.digitChar (n % 10)]

/-- Modelled from the spec: decimal rendering of a natural number. -/
def natChars (n : Nat) : List Char :=
  if n = 0 then ['0'] else natCharsCore n n

/-- Modelled from the spec: parsing of an unsigned decimal number (the
`str::parse::<u64>` used by the cursor parser): at least one character, all
characters decimal digits, value read most-significant-first. -/
def charsToNat (cs : List Char) : Option Nat :=
  if cs.isEmpty then none
  else if cs.all Char.isDigit then
    some (cs.foldl (fun a c => 10 * a + (c.toNat - 48)) 0)
  else none

/-- Modelled from the spec: the canonical text encoding of a `Cursor`. -/
def cursorChars : Cursor → List Char
  | .page n => natChars n
  | .before i => 'b' :: natChars i
  | .after i => 'a' :: natChars i

/-- Modelled from the spec: parsing of a `Cursor` — a leading `'a'` selects
After, a leading `'b'` selects Before, anything else (including the empty
string and all-digit strings) is read as a Page number. -/
def parseCursor : List Char → Option Cursor
  | [] => (charsToNat []).map .page
  | c :: rest =>
      if c = 'a' then (charsToNat rest).map .after
      else if c = 'b' then (charsToNat rest).map .before
      else (charsToNat (c :: rest)).map .page

end Tag

/-! ## Client (src/client.rs)

The snapshot's `src/client.rs` is the synchronous `reqwest_mock` revision:
`check_limit`, `get_json`, and the `list` / `list_before` / `list_page`
family.  The transport collaborator is an oracle value: either a send
failure or a `(status, body)` response, the body being either malformed
(UTF-8 or JSON error — both branches produce `Error::Serial(msg)`) or a
decoded JSON value.  `Post::try_from` is an abstract parameter producing
either a post or the `(key, value)` pair of a deserialization error.

Note on `Error::Http`: `src/error.rs` declares `Http(u16, Option<String>)`
while this revision of `src/client.rs` constructs it with the status alone;
we embed the `error.rs` shape and the construction `Error::Http(status)` as
`.http status none`.

The Rust code indexes pages with a `u16` (`list_page`) and limits with
`u64`; both are embedded as `Nat`, which only enlarges the quantified
domain of the proved statements. -/

namespace ClientV1

/-- Embedding of `serde_json::Value`. -/
inductive Json where
  | null
  | bool (b : Bool)
  | num (n : Int)
  | str (s : String)
  | arr (elems : List Json)
  | obj (fields : List (String × Json))

/-- Embedding of `Value::as_array`. -/
def Json.asArray : Json → Option (List Json)
  | .arr elems => some elems
  | _ => none

/-- Embedding of `error::Error` (the `src/error.rs` revision). -/
inductive Error where
  | aboveLimit (option_name : String) (value : Nat) (maximum : Nat)
  | http (code : Nat) (reason : Option String)
  | serial (msg : String)
  | postDeserialization (key : String) (value : String)
  | cannotSendRequest (msg : String)
  | cannotCreateClient (msg : String)
deriving DecidableEq, Repr

/-- Whether an error is the `AboveLimit` variant. -/
def Error.isAboveLimit : Error → Bool
  | .aboveLimit _ _ _ => true
  | _ => false

/-- Embedding of `LIST_HARD_LIMIT = 320`. -/
def LIST_HARD_LIMIT : Nat := 320

/-- Embedding of `check_limit`. -/
def check_limit (limit : Nat) : Except Error Unit :=
  if limit > LIST_HARD_LIMIT then
    .error (.aboveLimit "limit" limit LIST_HARD_LIMIT)
  else
    .ok ()

/-- Response body as seen by `get_json`: `body_to_utf8()` / `serde_json::from_str`
may fail (both failure branches produce `Error::Serial(format!("{}", e))`),
or yield a decoded JSON value. -/
inductive Body where
  | malformed (msg : String)
  | wellFormed (v : Json)

/-- Transport collaborator outcome for one request:
`self.client.get(url).headers(…).send()` either fails or yields a response
with a status code and a body. -/
inductive TransportResult where
  | sendErr (msg : String)
  | resp (status : Nat) (body : Body)

/-- Embedding of `StatusCode::is_success()`: a 2xx status. -/
def statusIsSuccess (s : Nat) : Bool := decide (200 ≤ s) && decide (s < 300)

/-- Embedding of `Client::get_json` (minus the cooldown sleep, which does
not affect the returned value): send failures become `CannotSendRequest`,
non-2xx statuses become `Http`, malformed bodies become `Serial`, and a
well-formed 2xx body is returned. -/
def get_json (tr : TransportResult) : Except Error Json :=
  match tr with
  | .sendErr msg => .error (.cannotSendRequest msg)
  | .resp status body =>
      if statusIsSuccess status then
        match body with
        | .malformed msg => .error (.serial msg)
        | .wellFormed v => .ok v
      else
        .error (.http status none)

variable {P : Type}

/-- Embedding of the `for p in body.as_array().unwrap().iter()
{ posts.push(Post::try_from(p)?); }` loop: decode each element in order,
short-circuiting on the first failing element. -/
def collectPosts (pr : Json → Except (String × String) P) :
    List Json → Except Error (List P)
  | [] => .ok []
  | j :: rest =>
      match pr j with
      | .error kv => .error (.postDeserialization kv.1 kv.2)
      | .ok p =>
          match collectPosts pr rest with
          | .error e => .error e
          | .ok ps => .ok (p :: ps)

/-- Embedding of `Client::list`.  The second component records whether the
request was issued (i.e. whether `get_json` ran).  The first component is
`none` when the Rust code panics — which happens exactly on the
`body.as_array().unwrap()` of a well-formed non-array 2xx body — and
`some result` otherwise. -/
def list (pr : Json → Except (String × String) P) (limit : Nat)
    (tr : TransportResult) : Option (Except Error (List P)) × Bool :=
  match check_limit limit with
  | .error e => (some (.error e), false)
  | .ok _ =>
      match get_json tr with
      | .error e => (some (.error e), true)
      | .ok body =>
          match body.asArray with
          | none => (none, true)
          | some elems => (some (collectPosts pr elems), true)

/-- Embedding of `Client::list_before`; apart from the `before_id` URL
parameter (which only changes the requested URL, not the control flow) the
body is identical to `Client::list`. -/
def list_before (pr : Json → Except (String × String) P) (limit : Nat)
    (before_id : Nat) (tr : TransportResult) :
    Option (Except Error (List P)) × Bool :=
  match check_limit limit with
  | .error e => (some (.error e), false)
  | .ok _ =>
      match get_json tr with
      | .error e => (some (.error e), true)
      | .ok body =>
          match body.asArray with
          | none => (none, true)
          | some elems => (some (collectPosts pr elems), true)

/-- Embedding of `Client::list_page`; apart from the `page` URL parameter
the body is identical to `Client::list`. -/
def list_page (pr : Json → Except (String × String) P) (limit : Nat)
    (page : Nat) (tr : TransportResult) :
    Option (Except Error (List P)) × Bool :=
  match check_limit limit with
  | .error e => (some (.error e), false)
  | .ok _ =>
      match get_json tr with
      | .error e => (some (.error e), true)
      | .ok body =>
          match body.asArray with
          | none => (none, true)
          | some elems => (some (collectPosts pr elems), true)

end ClientV1

/-! ## Rate limiter lemmas -/

namespace RateLimit

theorem permitted_le {d t : Nat} (h : permitted (some d) t = true) : d ≤ t := by
  simpa [permitted] using h

/-- Invariant for the spacing proof: along any valid chronological trace, the
start times of permitted requests form a chain with gaps of at least
`reqCooldownMs`, and the first start time is bounded below by `stateLB`. -/
theorem acq_gap_aux (evs : List Ev) : ∀ (st : LState) (t0 : Nat),
    validTrace st evs = true → chron t0 evs = true →
    List.Chain' (fun a b => a + reqCooldownMs ≤ b) (acqTimes evs) ∧
      ∀ a, (acqTimes evs).head? = some a → stateLB st t0 ≤ a := by
  induction evs with
  | nil =>
      intro st t0 _ _
      exact ⟨List.chain'_nil, by intro a h; simp [acqTimes] at h⟩
  | cons e rest ih =>
      intro st t0 hv hc
      obtain ⟨holder, slot⟩ := st
      have hc1 : t0 ≤ e.time ∧ chron e.time rest = true := by
        simpa [chron, Bool.and_eq_true] using hc
      cases e with
      | acq i t =>
          cases holder with
          | some j => simp [validTrace, step] at hv
          | none =>
              by_cases hp : permitted slot t = true
              · have hv' : validTrace ⟨some i, slot⟩ rest = true := by
                  simpa [validTrace, step, hp] using hv
                have := ih ⟨some i, slot⟩ t hv' hc1.2
                constructor
                · rw [acqTimes]
                  rw [List.chain'_cons']
                  refine ⟨?_, this.1⟩
                  intro b hb
                  have hlb := this.2 b hb
                  simpa [stateLB] using hlb
                · intro a ha
                  rw [acqTimes] at ha
                  simp at ha
                  subst ha
                  cases slot with
                  | none => simp [stateLB]
                  | some d => simpa [stateLB] using permitted_le hp
              · simp [validTrace, step, hp] at hv
      | fin i t =>
          cases holder with
          | none => simp [validTrace, step] at hv
          | some j =>
              by_cases hij : i = j
              · have hv' : validTrace ⟨none, some (t + reqCooldownMs)⟩ rest = true := by
                  simpa [validTrace, step, hij] using hv
                have := ih ⟨none, some (t + reqCooldownMs)⟩ t hv' hc1.2
                constructor
                · rw [acqTimes]; exact this.1
                · intro a ha
                  rw [acqTimes] at ha
                  have hlb := this.2 a ha
                  have ht : t0 ≤ t := by simpa [Ev.time] using hc1.1
                  simp [stateLB] at hlb ⊢
                  omega
              · simp [validTrace, step, hij] at hv

/-- Serialization invariant: along any valid trace, events alternate between
request start and request completion according to whether the guard is
currently held. -/
theorem alternates_aux (evs : List Ev) : ∀ (st : LState),
    validTrace st evs = true → alternatesFrom st.holder.isNone evs = true := by
  induction evs with
  | nil => intro st _; cases st.holder.isNone <;> rfl
  | cons e rest ih =>
      intro st hv
      obtain ⟨holder, slot⟩ := st
      cases e with
      | acq i t =>
          cases holder with
          | some j => simp [validTrace, step] at hv
          | none =>
              by_cases hp : permitted slot t = true
              · have hv' : validTrace ⟨some i, slot⟩ rest = true := by
                  simpa [validTrace, step, hp] using hv
                have := ih ⟨some i, slot⟩ hv'
                simpa [alternatesFrom] using this
              · simp [validTrace, step, hp] at hv
      | fin i t =>
          cases holder with
          | none => simp [validTrace, step] at hv
          | some j =>
              by_cases hij : i = j
              · have hv' : validTrace ⟨none, some (t + reqCooldownMs)⟩ rest = true := by
                  simpa [validTrace, step, hij] using hv
                have := ih ⟨none, some (t + reqCooldownMs)⟩ hv'
                simpa [alternatesFrom] using this
              · simp [validTrace, step, hij] at hv

end RateLimit

/-! ## Client lemmas -/

namespace ClientV1

theorem get_json_no_aboveLimit (tr : TransportResult) (e : Error)
    (h : get_json tr = .error e) : e.isAboveLimit = false := by
  cases tr with
  | sendErr msg =>
      simp [get_json] at h
      subst h; rfl
  | resp status body =>
      by_cases hs : statusIsSuccess status = true
      · cases body with
        | malformed msg =>
            simp [get_json, hs] at h
            subst h; rfl
        | wellFormed v => simp [get_json, hs] at h
      · simp [get_json, hs] at h
        subst h; rfl

theorem collectPosts_no_aboveLimit {P : Type} (pr : Json → Except (String × String) P) :
    ∀ (l : List Json) (e : Error), collectPosts pr l = .error e →
      e.isAboveLimit = false := by
  intro l
  induction l with
  | nil => intro e h; simp [collectPosts] at h
  | cons j rest ih =>
      intro e h
      rw [collectPosts] at h
      cases hj : pr j with
      | error kv =>
          rw [hj] at h
          simp at h
          subst h; rfl
      | ok p =>
          rw [hj] at h
          cases hr : collectPosts pr rest with
          | error e' =>
              rw [hr] at h
              simp at h
              subst h
              exact ih e' hr
          | ok ps =>
              rw [hr] at h
              simp at h

theorem list_before_eq_list {P : Type} (pr : Json → Except (String × String) P)
    (limit before_id : Nat) (tr : TransportResult) :
    list_before pr limit before_id tr = list pr limit tr := rfl

theorem list_page_eq_list {P : Type} (pr : Json → Except (String × String) P)
    (limit page : Nat) (tr : TransportResult) :
    list_page pr limit page tr = list pr limit tr := rfl

theorem list_aboveLimit_iff {P : Type} (pr : Json → Except (String × String) P)
    (limit : Nat) (tr : TransportResult) :
    ((list pr limit tr).1 = some (.error (.aboveLimit "limit" limit 320)) ↔
      320 < limit) ∧
    (320 < limit →
      list pr limit tr = (some (.error (.aboveLimit "limit" limit 320)), false)) := by
  by_cases h : 320 < limit
  · have hcl : check_limit limit = .error (.aboveLimit "limit" limit 320) := by
      have h2 : limit > LIST_HARD_LIMIT := h
      rw [check_limit, if_pos h2]
      rfl
    refine ⟨?_, fun _ => ?_⟩
    · simp [list, hcl, h]
    · simp [list, hcl]
  · have h2 : ¬ limit > LIST_HARD_LIMIT := h
    have hcl : check_limit limit = .ok () := by rw [check_limit, if_neg h2]
    refine ⟨⟨fun hres => ?_, fun hc => absurd hc h⟩, fun hc => absurd hc h⟩
    exfalso
    cases hg : get_json tr with
    | error e =>
        have hfalse := get_json_no_aboveLimit tr e hg
        simp [list, hcl, hg] at hres
        rw [hres] at hfalse
        simp [Error.isAboveLimit] at hfalse
    | ok body =>
        cases ha : body.asArray with
        | none => simp [list, hcl, hg, ha] at hres
        | some elems =>
            cases hc : collectPosts pr elems with
            | error err =>
                have hfalse := collectPosts_no_aboveLimit pr elems err hc
                simp [list, hcl, hg, ha, hc] at hres
                rw [hres] at hfalse
                simp [Error.isAboveLimit] at hfalse
            | ok ps => simp [list, hcl, hg, ha, hc] at hres

end ClientV1

/-! ## PostStream lemmas -/

namespace Post

variable {E J R : Type}

theorem pull_ended (tryFrom : J → Except E R) (rid : R → Nat)
    (s : PostStream E R) (sc : List (PageResp E J))
    (h1 : s.fetching = false) (h2 : s.ended = true) :
    pull tryFrom rid s sc = (.ready none, s, sc) := by
  simp [pull, h1, h2]

theorem pulls_ended (tryFrom : J → Except E R) (rid : R → Nat)
    (n : Nat) (s : PostStream E R) (sc : List (PageResp E J))
    (h1 : s.fetching = false) (h2 : s.ended = true) :
    pulls tryFrom rid n s sc = (List.replicate n (.ready none), s, sc) := by
  induction n with
  | zero => rfl
  | succ n ih =>
      rw [pulls, pull_ended tryFrom rid s sc h1 h2]
      rw [List.replicate_succ]
      simp [ih]

theorem pulls_add (tryFrom : J → Except E R) (rid : R → Nat)
    (m n : Nat) (s : PostStream E R) (sc : List (PageResp E J)) :
    pulls tryFrom rid (m + n) s sc =
      ((pulls tryFrom rid m s sc).1 ++
          (pulls tryFrom rid n (pulls tryFrom rid m s sc).2.1
            (pulls tryFrom rid m s sc).2.2).1,
        (pulls tryFrom rid n (pulls tryFrom rid m s sc).2.1
          (pulls tryFrom rid m s sc).2.2).2) := by
  induction m generalizing s sc with
  | zero => simp [pulls]
  | succ m ih =>
      have hrw : m + 1 + n = (m + n) + 1 := by omega
      rw [hrw, pulls, pulls, ih]
      simp

theorem pull_pop (tryFrom : J → Except E R) (rid : R → Nat)
    (q : Option Query) (u : Option String) (lid : Option Nat) (pg : Nat)
    (c : List (Except E R)) (it : Except E R) (sc : List (PageResp E J)) :
    pull tryFrom rid ⟨q, u, lid, pg, c.reverse ++ [it], false, false⟩ sc =
      (.ready (some it),
        ⟨q, u, (match it with | .ok p => some (rid p) | .error _ => lid), pg,
          c.reverse, false, false⟩,
        sc) := by
  simp [pull, popChunk, List.getLast?_concat, List.dropLast_concat]

theorem pulls_drain (tryFrom : J → Except E R) (rid : R → Nat)
    (c : List (Except E R)) :
    ∀ (q : Option Query) (u : Option String) (lid : Option Nat) (pg : Nat)
      (sc : List (PageResp E J)),
    ∃ lid2, pulls tryFrom rid c.length ⟨q, u, lid, pg, c.reverse, false, false⟩ sc =
      (c.map (fun it => .ready (some it)), ⟨q, u, lid2, pg, [], false, false⟩, sc) := by
  induction c with
  | nil => intro q u lid pg sc; exact ⟨lid, rfl⟩
  | cons it c ih =>
      intro q u lid pg sc
      obtain ⟨lid2, hrec⟩ :=
        ih q u (match it with | .ok p => some (rid p) | .error _ => lid) pg sc
      refine ⟨lid2, ?_⟩
      have hrev : (it :: c).reverse = c.reverse ++ [it] := by simp
      rw [List.length_cons, pulls, hrev, pull_pop tryFrom rid]
      simp [hrec]

theorem pull_fetch_err (tryFrom : J → Except E R) (rid : R → Nat)
    (q : Option Query) (u : Option String) (lid : Option Nat) (pg : Nat)
    (e : E) (rest : List (PageResp E J)) :
    ∃ u2 pg2,
      pull tryFrom rid ⟨q, u, lid, pg, [], false, false⟩ (.err e :: rest) =
        (.ready (some (.error e)), ⟨q, u2, lid, pg2, [], true, false⟩, rest) := by
  refine ⟨(startFetch (⟨q, u, lid, pg, [], false, false⟩ : PostStream E R)).query_url,
    (startFetch (⟨q, u, lid, pg, [], false, false⟩ : PostStream E R)).page, ?_⟩
  simp [pull, startFetch, afterFetch]

theorem pull_fetch_ok_nil (tryFrom : J → Except E R) (rid : R → Nat)
    (q : Option Query) (u : Option String) (lid : Option Nat) (pg : Nat)
    (rest : List (PageResp E J)) :
    ∃ u2 pg2,
      pull tryFrom rid ⟨q, u, lid, pg, [], false, false⟩ (.ok [] :: rest) =
        (.ready none, ⟨q, u2, lid, pg2, [], true, false⟩, rest) := by
  refine ⟨(startFetch (⟨q, u, lid, pg, [], false, false⟩ : PostStream E R)).query_url,
    (startFetch (⟨q, u, lid, pg, [], false, false⟩ : PostStream E R)).page, ?_⟩
  simp [pull, startFetch, afterFetch]

theorem pull_fetch_ok_cons (tryFrom : J → Except E R) (rid : R → Nat)
    (q : Option Query) (u : Option String) (lid : Option Nat) (pg : Nat)
    (j : J) (js : List J) (rest : List (PageResp E J)) :
    ∃ u2 pg2,
      pull tryFrom rid ⟨q, u, lid, pg, [], false, false⟩ (.ok (j :: js) :: rest) =
        (.ready (some (tryFrom j)),
          ⟨q, u2,
            (match tryFrom j with | .ok p => some (rid p) | .error _ => lid), pg2,
            (js.map tryFrom).reverse, false, false⟩,
          rest) := by
  refine ⟨(startFetch (⟨q, u, lid, pg, [], false, false⟩ : PostStream E R)).query_url,
    (startFetch (⟨q, u, lid, pg, [], false, false⟩ : PostStream E R)).page, ?_⟩
  have hchunk : ((j :: js).map tryFrom).reverse = (js.map tryFrom).reverse ++ [tryFrom j] := by
    simp
  simp only [pull, startFetch, afterFetch]
  simp [hchunk, popChunk, List.getLast?_concat, List.dropLast_concat]

theorem pulls_pages (tryFrom : J → Except E R) (rid : R → Nat)
    (pages : List (List J)) :
    ∀ (q : Option Query) (u : Option String) (lid : Option Nat) (pg : Nat)
      (sc : List (PageResp E J)), (∀ p ∈ pages, p ≠ []) →
    ∃ u2 lid2 pg2,
      pulls tryFrom rid pages.flatten.length ⟨q, u, lid, pg, [], false, false⟩
          (pages.map .ok ++ sc) =
        (pages.flatten.map (fun j => .ready (some (tryFrom j))),
          ⟨q, u2, lid2, pg2, [], false, false⟩, sc) := by
  induction pages with
  | nil => intro q u lid pg sc hne; exact ⟨u, lid, pg, rfl⟩
  | cons p ps ih =>
      intro q u lid pg sc hne
      obtain ⟨j, js, rfl⟩ : ∃ j js, p = j :: js := by
        cases p with
        | nil => exact absurd rfl (hne _ (by simp))
        | cons a l => exact ⟨a, l, rfl⟩
      have hlen : ((j :: js) :: ps).flatten.length =
          1 + (js.length + ps.flatten.length) := by
        simp [List.length_append]
        omega
      obtain ⟨u1, pg1, hpull⟩ :=
        pull_fetch_ok_cons tryFrom rid q u lid pg j js (ps.map .ok ++ sc)
      obtain ⟨lid2, hdrain⟩ := pulls_drain tryFrom rid (js.map tryFrom) q u1
        (match tryFrom j with | .ok p => some (rid p) | .error _ => lid) pg1
        (ps.map .ok ++ sc)
      obtain ⟨u3, lid3, pg3, hrest⟩ := ih q u1 lid2 pg1 sc (fun p hp => hne p (by simp [hp]))
      refine ⟨u3, lid3, pg3, ?_⟩
      rw [hlen, pulls_add tryFrom rid 1]
      have h1 : pulls tryFrom rid 1 (⟨q, u, lid, pg, [], false, false⟩ : PostStream E R)
          (((j :: js) :: ps).map .ok ++ sc) =
          ([.ready (some (tryFrom j))],
            ⟨q, u1, (match tryFrom j with | .ok p => some (rid p) | .error _ => lid),
              pg1, (js.map tryFrom).reverse, false, false⟩,
            ps.map .ok ++ sc) := by
        rw [pulls, pulls]
        simp only [List.map_cons, List.cons_append] at hpull ⊢
        rw [hpull]
      rw [h1, pulls_add tryFrom rid js.length]
      have hjs : js.length = (js.map tryFrom).length := by simp
      rw [hjs, hdrain, hrest]
      simp

end Post

/-! ## Cursor encoding lemmas -/

namespace Tag

theorem digitChar_isDigit {d : Nat} (h : d < 10) :
    (Nat.digitChar d).isDigit = true := by
  interval_cases d <;> decide

theorem digitChar_val {d : Nat} (h : d < 10) :
    (Nat.digitChar d).toNat - 48 = d := by
  interval_cases d <;> decide

theorem natCharsCore_spec : ∀ (fuel n : Nat), 0 < n → n ≤ fuel →
    (natCharsCore fuel n).all Char.isDigit = true ∧
    natCharsCore fuel n ≠ [] ∧
    ∀ a, (natCharsCore fuel n).foldl (fun a c => 10 * a + (c.toNat - 48)) a =
      a * 10 ^ (natCharsCore fuel n).length + n := by
  intro fuel
  induction fuel with
  | zero => intro n h1 h2; omega
  | succ f ih =>
      intro n h1 h2
      rw [natCharsCore, if_neg (by omega)]
      have hm10 : n % 10 < 10 := Nat.mod_lt _ (by omega)
      by_cases h10 : n < 10
      · have hdiv : n / 10 = 0 := Nat.div_eq_of_lt h10
        have hcore0 : natCharsCore f (n / 10) = [] := by
          rw [hdiv]
          cases f <;> simp [natCharsCore]
        rw [hcore0]
        have hmod : n % 10 = n := Nat.mod_eq_of_lt h10
        refine ⟨?_, by simp, ?_⟩
        · simp [digitChar_isDigit hm10]
        · intro a
          have hv := digitChar_val h10
          simp [List.foldl, hmod, hv]
          omega
      · have hd1 : 0 < n / 10 := Nat.div_pos (by omega) (by omega)
        have hd2 : n / 10 ≤ f := by
          have := Nat.div_lt_self h1 (by omega : 1 < 10)
          omega
        obtain ⟨hall, hne, hfold⟩ := ih (n / 10) hd1 hd2
        refine ⟨?_, by simp, ?_⟩
        · simp [List.all_append, hall, digitChar_isDigit hm10]
        · intro a
          rw [List.foldl_append, hfold a]
          simp [digitChar_val hm10]
          calc 10 * (a * 10 ^ (natCharsCore f (n / 10)).length + n / 10) + n % 10
              = a * (10 ^ (natCharsCore f (n / 10)).length * 10) +
                  (10 * (n / 10) + n % 10) := by ring
            _ = a * 10 ^ ((natCharsCore f (n / 10)).length + 1) + n := by
                rw [pow_succ, Nat.div_add_mod]

theorem natChars_all_digits (n : Nat) : (natChars n).all Char.isDigit = true := by
  by_cases h : n = 0
  · subst h; decide
  · rw [natChars, if_neg h]
    exact (natCharsCore_spec n n (by omega) le_rfl).1

theorem natChars_ne_nil (n : Nat) : natChars n ≠ [] := by
  by_cases h : n = 0
  · subst h; decide
  · rw [natChars, if_neg h]
    exact (natCharsCore_spec n n (by omega) le_rfl).2.1

theorem charsToNat_natChars (n : Nat) : charsToNat (natChars n) = some n := by
  by_cases h : n = 0
  · subst h; decide
  · rw [natChars, if_neg h]
    obtain ⟨hall, hne, hfold⟩ := natCharsCore_spec n n (by omega) le_rfl
    rw [charsToNat, if_neg (by simpa [List.isEmpty_iff] using hne), if_pos hall]
    have h0 := hfold 0
    simp at h0
    rw [h0]

theorem isDigit_ne_a {c : Char} (h : c.isDigit = true) : c ≠ 'a' := by
  intro he
  subst he
  exact absurd h (by decide)

theorem isDigit_ne_b {c : Char} (h : c.isDigit = true) : c ≠ 'b' := by
  intro he
  subst he
  exact absurd h (by decide)

theorem parseCursor_digits (cs : List Char) (hd : cs.all Char.isDigit = true)
    (hne : cs ≠ []) : parseCursor cs = (charsToNat cs).map .page := by
  obtain ⟨c, rest, rfl⟩ := List.exists_cons_of_ne_nil hne
  have hc : c.isDigit = true := by
    have := hd
    simp [List.all_cons] at this
    exact this.1
  rw [parseCursor, if_neg (isDigit_ne_a hc), if_neg (isDigit_ne_b hc)]

end Tag

/-! ## Claim theorems -/

open RateLimit

/-- C1: across all concurrent `RateLimit::check` invocations sharing one
limiter instance — modelled as any valid chronological event trace of the
limiter transition system from the initial state (guard free, deadline slot
empty) — the start times of the permitted wrapped requests, in order, are
spaced by at least the 600 ms cooldown: each start time plus
`reqCooldownMs` is at most the next start time. -/
theorem claim_C1_cooldown_spacing (evs : List Ev)
    (hv : validTrace ⟨none, none⟩ evs = true) (hc : chron 0 evs = true) :
    List.Chain' (fun a b => a + reqCooldownMs ≤ b) (acqTimes evs) :=
  (acq_gap_aux evs ⟨none, none⟩ 0 hv hc).1

theorem claim_C1_witness :
    validTrace ⟨none, none⟩
        [.acq 0 0, .fin 0 10, .acq 1 610, .fin 1 700, .acq 2 1400] = true ∧
      List.Chain' (fun a b => a + reqCooldownMs ≤ b)
        (acqTimes [.acq 0 0, .fin 0 10, .acq 1 610, .fin 1 700, .acq 2 1400]) :=
  ⟨by decide, claim_C1_cooldown_spacing _ (by decide) (by decide)⟩

/-- C2: every `RateLimit::check` invocation — whether the wrapped future
resolves to a success value, resolves to an error value, or panics — leaves
the shared deadline slot holding `some (completion + 600)`, and the outcome
of the wrapped future is returned to the caller unchanged. -/
theorem claim_C2_slot_update_all_paths {ε α : Type}
    (slot : Option Nat) (outcome : FutOutcome ε α) (completion : Nat) :
    checkRun slot outcome completion = (outcome, some (completion + reqCooldownMs)) := by
  cases outcome <;> rfl

/-- C9 counterexample: the claim asserts that exclusive access to the
deadline slot is not held across a wrapped request's I/O, so that a second
permitted request can have its I/O in flight concurrently.  In the embedded
semantics of `RateLimit::check` the mutex guard is held from `lock()` until
the wrapped future completes, so the concrete interleaving in which request
1 starts at t = 700 (well beyond the cooldown) while request 0 is still in
flight (it completes at t = 800) is not a valid execution. -/
theorem claim_C9_counterexample :
    validTrace ⟨none, none⟩
      [.acq 0 0, .acq 1 700, .fin 0 800, .fin 1 900] = false := by decide

/-- C9 amended: `RateLimit::check` holds the exclusive mutex guard across
the wrapped request's I/O: in every valid execution of the limiter starting
with the guard free, events strictly alternate request-start and
request-completion, so no second permitted request starts — much less has
its I/O in flight — while another wrapped request is in flight. -/
theorem claim_C9_amended_serialized (slot : Option Nat) (evs : List Ev)
    (hv : validTrace ⟨none, slot⟩ evs = true) :
    alternatesFrom true evs = true := by
  have h := alternates_aux evs ⟨none, slot⟩ hv
  simpa using h

theorem claim_C9_amended_witness :
    validTrace ⟨none, none⟩ [.acq 0 0, .fin 0 5, .acq 1 605] = true ∧
      alternatesFrom true [.acq 0 0, .fin 0 5, .acq 1 605] = true :=
  ⟨by decide, claim_C9_amended_serialized none _ (by decide)⟩

/-- C10: every tag `Query` reachable from `Query::new()` by builder-method
calls never simultaneously holds a sort order and an id-relative cursor:
whenever `order` is set, the `page` field is unset or a `Page` cursor. -/
theorem claim_C10_order_cursor_invariant (q : Tag.Query) (hq : Tag.Reachable q) :
    q.order.isSome = true → Tag.isNoneOrPage q.page = true := by
  induction hq with
  | new => intro ho; simp [Tag.Query.new] at ho
  | @withPage q' v hr ih =>
      intro ho
      cases h : Tag.isNoneOrPage v with
      | true => simp [Tag.Query.withPage, h]
      | false => simp [Tag.Query.withPage, h] at ho
  | @withOrder q' v hr ih =>
      intro ho
      cases h : (v.isSome && !Tag.isNoneOrPage q'.page) with
      | true =>
          simp only [Tag.Query.withOrder, h]
          simp [Tag.isNoneOrPage]
      | false =>
          simp only [Tag.Query.withOrder, h] at ho ⊢
          simp only [Bool.false_eq_true, if_false] at ho ⊢
          cases hnp : Tag.isNoneOrPage q'.page with
          | true => rfl
          | false =>
              rw [ho, hnp] at h
              simp at h
  | withPerPage v hr ih => intro ho; exact ih (by simpa [Tag.Query.withPerPage] using ho)
  | withId v hr ih => intro ho; exact ih (by simpa [Tag.Query.withId] using ho)
  | withFuzzyNameMatches v hr ih =>
      intro ho; exact ih (by simpa [Tag.Query.withFuzzyNameMatches] using ho)
  | withNameMatches v hr ih =>
      intro ho; exact ih (by simpa [Tag.Query.withNameMatches] using ho)
  | withName v hr ih => intro ho; exact ih (by simpa [Tag.Query.withName] using ho)
  | withNames v hr ih => intro ho; exact ih (by simpa [Tag.Query.withNames] using ho)
  | withCategory v hr ih => intro ho; exact ih (by simpa [Tag.Query.withCategory] using ho)
  | withCategories v hr ih =>
      intro ho; exact ih (by simpa [Tag.Query.withCategories] using ho)
  | withHideEmpty v hr ih => intro ho; exact ih (by simpa [Tag.Query.withHideEmpty] using ho)
  | withHasWiki v hr ih => intro ho; exact ih (by simpa [Tag.Query.withHasWiki] using ho)
  | withHasArtist v hr ih => intro ho; exact ih (by simpa [Tag.Query.withHasArtist] using ho)

theorem claim_C10_witness :
    Tag.isNoneOrPage
      ((Tag.Query.new.withPage (some (.before 12054))).withOrder
        (some .similarity)).page = true :=
  claim_C10_order_cursor_invariant _
    (Tag.Reachable.withOrder _ (Tag.Reachable.withPage _ Tag.Reachable.new))
    (by decide)

/-- C5: for every successful fetch of a non-empty page in
`Client::tag_search_page`, the next cursor stored into the continuation
query is `Page (p+1)` when the current cursor is a page cursor, `Before`
of the minimum returned id when the cursor was a `Before` cursor or was
unset with no ordering, and `After` of the maximum returned id when the
cursor was an `After` cursor. -/
theorem claim_C5_next_cursor {T E : Type} (tid : T → Nat) (q : Tag.Query)
    (t : T) (ts : List T) :
    (∀ p, q.page = some (.page p) →
      Tag.tagSearchPage (E := E) tid (some q) (.ok (.items (t :: ts))) =
        some ((t :: ts).map Except.ok,
          some { q with page := some (.page (p + 1)) })) ∧
    (∀ x, q.page = some (.before x) →
      Tag.tagSearchPage (E := E) tid (some q) (.ok (.items (t :: ts))) =
        some ((t :: ts).map Except.ok,
          some { q with page := some (.before (Tag.minId tid (t :: ts))) })) ∧
    (q.page = none → q.order = none →
      Tag.tagSearchPage (E := E) tid (some q) (.ok (.items (t :: ts))) =
        some ((t :: ts).map Except.ok,
          some { q with page := some (.before (Tag.minId tid (t :: ts))) })) ∧
    (∀ x, q.page = some (.after x) →
      Tag.tagSearchPage (E := E) tid (some q) (.ok (.items (t :: ts))) =
        some ((t :: ts).map Except.ok,
          some { q with page := some (.after (Tag.maxId tid (t :: ts))) })) := by
  refine ⟨fun p hp => ?_, fun x hx => ?_, fun hp ho => ?_, fun x hx => ?_⟩ <;>
    simp [Tag.tagSearchPage, Tag.nextCursor, *]

theorem claim_C5_witness :
    Tag.tagSearchPage (E := Unit) (fun n : Nat => n)
        (some { Tag.Query.new with page := some (.before 9) })
        (.ok (.items [3, 2])) =
      some ([Except.ok 3, Except.ok 2],
        some { Tag.Query.new with page := some (.before 2) }) := by
  have h := (claim_C5_next_cursor (E := Unit) (fun n : Nat => n)
      { Tag.Query.new with page := some (.before 9) } 3 [2]).2.1 9 rfl
  have hmin : Tag.minId (fun n : Nat => n) [3, 2] = 2 := by decide
  rw [hmin] at h
  exact h

/-- C7: `Client::list`, `Client::list_before` and `Client::list_page`
return `Err(AboveLimit("limit", limit, 320))` if and only if the limit
argument exceeds `LIST_HARD_LIMIT = 320`, and in that case they return
before issuing any request, with a result that does not depend on the
transport collaborator; a limit of exactly 320 is accepted. -/
theorem claim_C7_hard_limit {P : Type}
    (pr : ClientV1.Json → Except (String × String) P)
    (limit before_id page : Nat) (tr tr2 : ClientV1.TransportResult) :
    ((ClientV1.list pr limit tr).1 =
        some (.error (.aboveLimit "limit" limit 320)) ↔ 320 < limit) ∧
    ((ClientV1.list_before pr limit before_id tr).1 =
        some (.error (.aboveLimit "limit" limit 320)) ↔ 320 < limit) ∧
    ((ClientV1.list_page pr limit page tr).1 =
        some (.error (.aboveLimit "limit" limit 320)) ↔ 320 < limit) ∧
    (320 < limit →
      ClientV1.list pr limit tr =
          (some (.error (.aboveLimit "limit" limit 320)), false) ∧
        ClientV1.list pr limit tr = ClientV1.list pr limit tr2 ∧
        ClientV1.list_before pr limit before_id tr =
          ClientV1.list_before pr limit before_id tr2 ∧
        ClientV1.list_page pr limit page tr =
          ClientV1.list_page pr limit page tr2) := by
  have h1 := ClientV1.list_aboveLimit_iff pr limit tr
  have h2 := ClientV1.list_aboveLimit_iff pr limit tr2
  refine ⟨h1.1, ?_, ?_, fun hl => ⟨h1.2 hl, ?_, ?_, ?_⟩⟩
  · rw [ClientV1.list_before_eq_list]; exact h1.1
  · rw [ClientV1.list_page_eq_list]; exact h1.1
  · rw [h1.2 hl, h2.2 hl]
  · rw [ClientV1.list_before_eq_list, ClientV1.list_before_eq_list,
      h1.2 hl, h2.2 hl]
  · rw [ClientV1.list_page_eq_list, ClientV1.list_page_eq_list,
      h1.2 hl, h2.2 hl]

theorem claim_C7_witness :
    (ClientV1.list (fun _ => Except.ok ()) 400 (.sendErr "x") =
        (some (.error (.aboveLimit "limit" 400 320)), false)) ∧
      ¬ ((ClientV1.list (fun _ => Except.ok ()) 320 (.sendErr "x")).1 =
        some (.error (.aboveLimit "limit" 320 320))) := by
  constructor
  · exact ((claim_C7_hard_limit (fun _ => Except.ok ()) 400 0 0
      (.sendErr "x") (.sendErr "x")).2.2.2 (by decide)).1
  · intro hres
    have h := (claim_C7_hard_limit (fun _ => Except.ok ()) 320 0 0
      (.sendErr "x") (.sendErr "x")).1.mp hres
    exact absurd h (by decide)

/-- C3: for every lazy post search sequence (`PostStream::poll_next`), if
fetching page k+1 fails with an error after pages 1..k succeeded non-empty,
the sequence yields all records of pages 1..k in server order, then yields
that one error exactly once as the final produced item, then yields nothing
further on every subsequent pull and consumes nothing further from the
response script (page k+2 is never requested) — the final state is ended
with no outstanding fetch.  On the tag side (`Client::tag_search_page`), an
erroring page yields its error once with a poisoned (`None`) continuation
query, and a poisoned query ends the stream with a result independent of
the response oracle, before any request. -/
theorem claim_C3_error_short_circuit {E J R T : Type}
    (tryFrom : J → Except E R) (rid : R → Nat) (tid : T → Nat)
    (q : Option Post.Query) (sid : Option Nat)
    (pages : List (List J)) (e : E) (rest : List (Post.PageResp E J)) (m : Nat)
    (hne : ∀ p ∈ pages, p ≠ []) :
    (∃ st : Post.PostStream E R, st.ended = true ∧ st.fetching = false ∧
      Post.pulls tryFrom rid (pages.flatten.length + 1 + m)
          (Post.PostStream.new q sid) (pages.map .ok ++ .err e :: rest) =
        (pages.flatten.map (fun j => .ready (some (tryFrom j))) ++
            .ready (some (.error e)) :: List.replicate m (.ready none),
          st, rest)) ∧
    (∀ resp : Except E (Tag.MaybeTags T), Tag.tagSearchPage tid none resp = none) ∧
    (∀ tq : Tag.Query, Tag.tagSearchPage (T := T) tid (some tq) (.error e) =
      some ([.error e], none)) := by
  refine ⟨?_, fun resp => rfl, fun tq => rfl⟩
  obtain ⟨u2, lid2, pg2, hpages⟩ :=
    Post.pulls_pages tryFrom rid pages q none sid 0 (.err e :: rest) hne
  obtain ⟨u3, pg3, herr⟩ := Post.pull_fetch_err tryFrom rid q u2 lid2 pg2 e rest
  refine ⟨⟨q, u3, lid2, pg3, [], true, false⟩, rfl, rfl, ?_⟩
  have h1m : pages.flatten.length + 1 + m = pages.flatten.length + (1 + m) := by omega
  rw [h1m, Post.pulls_add]
  simp only [Post.PostStream.new]
  rw [hpages]
  simp only
  rw [Post.pulls_add tryFrom rid 1 m, Post.pulls, Post.pulls, herr]
  simp only
  rw [Post.pulls_ended tryFrom rid m ⟨q, u3, lid2, pg3, [], true, false⟩ rest rfl rfl]
  simp

theorem claim_C3_witness :
    ∃ st : Post.PostStream Nat Nat, st.ended = true ∧ st.fetching = false ∧
      Post.pulls (fun j : Nat => Except.ok j) (fun r : Nat => r)
          (([[7, 8]] : List (List Nat)).flatten.length + 1 + 2)
          (Post.PostStream.new none none)
          (([[7, 8]] : List (List Nat)).map .ok ++ .err 500 :: []) =
        (([[7, 8]] : List (List Nat)).flatten.map
            (fun j => .ready (some (Except.ok j))) ++
            .ready (some (.error 500)) :: List.replicate 2 (.ready none),
          st, []) :=
  (claim_C3_error_short_circuit (T := Nat) (fun j : Nat => Except.ok j)
    (fun r : Nat => r) (fun t : Nat => t) none none [[7, 8]] 500 [] 2
    (by decide)).1

/-- C4: for every lazy post search sequence whose pages 1..k are non-empty
and whose page k+1 is empty, the sequence yields exactly the records of
pages 1..k — each page's records emitted in original server order even
though the page is stored internally reversed and consumed by pop-from-end
— then ends with no error (`None` termination), and after receiving the
first empty page no further pulls consume anything from the response
script. -/
theorem claim_C4_empty_page_exhaustion {E J R : Type}
    (conv : J → R) (rid : R → Nat)
    (q : Option Post.Query) (sid : Option Nat)
    (pages : List (List J)) (rest : List (Post.PageResp E J)) (m : Nat)
    (hne : ∀ p ∈ pages, p ≠ []) :
    ∃ st : Post.PostStream E R, st.ended = true ∧ st.fetching = false ∧
      Post.pulls (fun j => Except.ok (conv j)) rid (pages.flatten.length + 1 + m)
          (Post.PostStream.new q sid) (pages.map .ok ++ .ok [] :: rest) =
        (pages.flatten.map (fun j => .ready (some (.ok (conv j)))) ++
            .ready none :: List.replicate m (.ready none),
          st, rest) := by
  obtain ⟨u2, lid2, pg2, hpages⟩ :=
    Post.pulls_pages (fun j => Except.ok (conv j)) rid pages q none sid 0
      (.ok [] :: rest) hne
  obtain ⟨u3, pg3, hnil⟩ :=
    Post.pull_fetch_ok_nil (fun j => Except.ok (conv j)) rid q u2 lid2 pg2 rest
  refine ⟨⟨q, u3, lid2, pg3, [], true, false⟩, rfl, rfl, ?_⟩
  have h1m : pages.flatten.length + 1 + m = pages.flatten.length + (1 + m) := by omega
  rw [h1m, Post.pulls_add]
  simp only [Post.PostStream.new]
  rw [hpages]
  simp only
  rw [Post.pulls_add (fun j => Except.ok (conv j)) rid 1 m, Post.pulls, Post.pulls, hnil]
  simp only
  rw [Post.pulls_ended (fun j => Except.ok (conv j)) rid m
    ⟨q, u3, lid2, pg3, [], true, false⟩ rest rfl rfl]
  simp

theorem claim_C4_witness :
    ∃ st : Post.PostStream Unit Nat, st.ended = true ∧ st.fetching = false ∧
      Post.pulls (fun j : Nat => Except.ok (j + 1)) (fun r : Nat => r)
          (([[3], [4, 5]] : List (List Nat)).flatten.length + 1 + 1)
          (Post.PostStream.new none none)
          (([[3], [4, 5]] : List (List Nat)).map .ok ++ .ok [] :: []) =
        (([[3], [4, 5]] : List (List Nat)).flatten.map
            (fun j => .ready (some (.ok (j + 1)))) ++
            .ready none :: List.replicate 1 (.ready none),
          st, []) :=
  claim_C4_empty_page_exhaustion (E := Unit) (fun j : Nat => j + 1)
    (fun r : Nat => r) none none [[3], [4, 5]] [] 1 (by decide)

/-- C6: for every `Cursor` value, the text encoding is the decimal digits
of `n` for `Page n`, `b` plus decimal digits for `Before id`, and `a` plus
decimal digits for `After id`; parsing maps a leading `a` to After, a
leading `b` to Before, and any other (non-empty, parseable) input to Page;
and `parse (to_string c) = c` holds for all three variants. -/
theorem claim_C6_cursor_roundtrip :
    (∀ n, 1 ≤ n →
      Tag.parseCursor (Tag.cursorChars (.page n)) = some (.page n)) ∧
    (∀ i, Tag.parseCursor (Tag.cursorChars (.before i)) = some (.before i)) ∧
    (∀ i, Tag.parseCursor (Tag.cursorChars (.after i)) = some (.after i)) ∧
    (∀ n, Tag.cursorChars (.page n) = Tag.natChars n) ∧
    (∀ i, Tag.cursorChars (.before i) = 'b' :: Tag.natChars i) ∧
    (∀ i, Tag.cursorChars (.after i) = 'a' :: Tag.natChars i) ∧
    (∀ cs r, Tag.parseCursor ('a' :: cs) = some r → ∃ i, r = .after i) ∧
    (∀ cs r, Tag.parseCursor ('b' :: cs) = some r → ∃ i, r = .before i) ∧
    (∀ c cs r, c ≠ 'a' → c ≠ 'b' → Tag.parseCursor (c :: cs) = some r →
      ∃ n, r = .page n) := by
  refine ⟨?_, ?_, ?_, fun n => rfl, fun i => rfl, fun i => rfl, ?_, ?_, ?_⟩
  · intro n _
    rw [Tag.cursorChars,
      Tag.parseCursor_digits _ (Tag.natChars_all_digits n) (Tag.natChars_ne_nil n),
      Tag.charsToNat_natChars]
    rfl
  · intro i
    rw [Tag.cursorChars, Tag.parseCursor, if_neg (by decide), if_pos rfl,
      Tag.charsToNat_natChars]
    rfl
  · intro i
    rw [Tag.cursorChars, Tag.parseCursor, if_pos rfl, Tag.charsToNat_natChars]
    rfl
  · intro cs r h
    rw [Tag.parseCursor, if_pos rfl] at h
    cases hv : Tag.charsToNat cs with
    | none => rw [hv] at h; simp at h
    | some k => rw [hv] at h; simp at h; exact ⟨k, h.symm⟩
  · intro cs r h
    rw [Tag.parseCursor, if_neg (by decide), if_pos rfl] at h
    cases hv : Tag.charsToNat cs with
    | none => rw [hv] at h; simp at h
    | some k => rw [hv] at h; simp at h; exact ⟨k, h.symm⟩
  · intro c cs r hca hcb h
    rw [Tag.parseCursor, if_neg hca, if_neg hcb] at h
    cases hv : Tag.charsToNat (c :: cs) with
    | none => rw [hv] at h; simp at h
    | some k => rw [hv] at h; simp at h; exact ⟨k, h.symm⟩

theorem claim_C6_witness :
    Tag.parseCursor (Tag.cursorChars (.page 9)) = some (.page 9) ∧
      Tag.parseCursor (Tag.cursorChars (.before 42)) = some (.before 42) ∧
      Tag.parseCursor (Tag.cursorChars (.after 17)) = some (.after 17) ∧
      (∃ i, Tag.Cursor.after 17 = .after i) :=
  ⟨claim_C6_cursor_roundtrip.1 9 (by decide),
    claim_C6_cursor_roundtrip.2.1 42,
    claim_C6_cursor_roundtrip.2.2.1 17,
    claim_C6_cursor_roundtrip.2.2.2.2.2.2.1 ['1', '7'] (.after 17) (by decide)⟩

/-- C8 (code-bug exhibit): on a 2xx response whose body is well-formed JSON
but not a JSON array, `Client::list` reaches `body.as_array().unwrap()` and
panics — modelled as the `none` result — instead of returning an
`Error::Serial` value as the specification requires.  The request has
already been issued at that point (second component `true`). -/
theorem claim_C8_panic_on_non_array :
    ClientV1.list (fun _ => Except.ok ()) 5
      (.resp 200 (.wellFormed (.obj []))) = (none, true) := rfl

end RS621
